import Mathlib

/-!
Verification of the qdrant-genkit adapter libraries (Go and JS) against their
natural-language specification.  The development shallowly embeds:

* the payload value converter of the Go adapter (newValue, newList, newStruct,
  newValueMap), including UTF-8 validation and base64 encoding of byte slices;
* the point-id generator (json.Marshal of a document followed by a
  name-based SHA-1 UUID over a fixed namespace);
* the observable behaviour of the Go and JS indexer and retriever adapters,
  modelled as effect traces against an abstract backend.

Go strings are byte sequences (not necessarily valid UTF-8); they are
modelled as lists of byte values (Nat, < 256 where it matters).
-/

/-- GoStr models a Go string or byte slice: a sequence of bytes. -/
abbrev GoStr : Type := List Nat

/-- utf8ContOk tests whether a byte is a UTF-8 continuation byte (0x80..0xBF). -/
def utf8ContOk (b : Nat) : Bool :=
  0x80 ≤ b && b ≤ 0xBF

/-- utf8Valid models Go unicode/utf8.ValidString on a byte sequence: standard
UTF-8 validation rejecting overlong encodings, surrogates and code points
above U+10FFFF, exactly as the Go standard library acceptRanges table does. -/
def utf8Valid : List Nat → Bool
  | [] => true
  | b :: rest =>
    if b ≤ 0x7F then utf8Valid rest
    else if 0xC2 ≤ b && b ≤ 0xDF then
      match rest with
      | b1 :: rest2 => utf8ContOk b1 && utf8Valid rest2
      | [] => false
    else if 0xE0 ≤ b && b ≤ 0xEF then
      match rest with
      | b1 :: b2 :: rest2 =>
        (if b = 0xE0 then 0xA0 ≤ b1 && b1 ≤ 0xBF
         else if b = 0xED then 0x80 ≤ b1 && b1 ≤ 0x9F
         else utf8ContOk b1) && utf8ContOk b2 && utf8Valid rest2
      | _ => false
    else if 0xF0 ≤ b && b ≤ 0xF4 then
      match rest with
      | b1 :: b2 :: b3 :: rest2 =>
        (if b = 0xF0 then 0x90 ≤ b1 && b1 ≤ 0xBF
         else if b = 0xF4 then 0x80 ≤ b1 && b1 ≤ 0x8F
         else utf8ContOk b1) && utf8ContOk b2 && utf8ContOk b3 && utf8Valid rest2
      | _ => false
    else false

/-- base64Char maps a 6-bit value to the byte of the standard base64 alphabet
(A-Z, a-z, 0-9, plus, slash), as used by Go encoding/base64.StdEncoding. -/
def base64Char (n : Nat) : Nat :=
  if n < 26 then 65 + n
  else if n < 52 then 97 + (n - 26)
  else if n < 62 then 48 + (n - 52)
  else if n = 62 then 43
  else 47

/-- base64CharDec inverts base64Char on alphabet bytes; returns none on any
byte outside the standard alphabet. -/
def base64CharDec (c : Nat) : Option Nat :=
  if 65 ≤ c && c ≤ 90 then some (c - 65)
  else if 97 ≤ c && c ≤ 122 then some (26 + (c - 97))
  else if 48 ≤ c && c ≤ 57 then some (52 + (c - 48))
  else if c = 43 then some 62
  else if c = 47 then some 63
  else none

/-- base64Encode models Go base64.StdEncoding.EncodeToString: bytes are taken
three at a time into four alphabet bytes; a final group of one or two bytes is
padded with one or two equals signs (byte 61). -/
def base64Encode : List Nat → List Nat
  | [] => []
  | [b0] =>
    [base64Char (b0 / 4), base64Char (b0 % 4 * 16), 61, 61]
  | [b0, b1] =>
    [base64Char (b0 / 4), base64Char (b0 % 4 * 16 + b1 / 16),
     base64Char (b1 % 16 * 4), 61]
  | b0 :: b1 :: b2 :: rest =>
    base64Char (b0 / 4) :: base64Char (b0 % 4 * 16 + b1 / 16) ::
    base64Char (b1 % 16 * 4 + b2 / 64) :: base64Char (b2 % 64) ::
    base64Encode rest

/-- base64Decode is standard base64 decoding of a padded encoding: four
alphabet bytes at a time, a trailing padded group (one or two equals signs,
byte 61) decoding to two bytes or one, returning none on malformed input. -/
def base64Decode : List Nat → Option (List Nat)
  | [] => some []
  | c0 :: c1 :: c2 :: c3 :: rest =>
    if c3 = 61 then
      if rest = [] then
        if c2 = 61 then do
          let n0 ← base64CharDec c0
          let n1 ← base64CharDec c1
          if n1 % 16 = 0 then some [n0 * 4 + n1 / 16] else none
        else do
          let n0 ← base64CharDec c0
          let n1 ← base64CharDec c1
          let n2 ← base64CharDec c2
          if n2 % 4 = 0 then
            some [n0 * 4 + n1 / 16, n1 % 16 * 16 + n2 / 4]
          else none
      else none
    else do
      let n0 ← base64CharDec c0
      let n1 ← base64CharDec c1
      let n2 ← base64CharDec c2
      let n3 ← base64CharDec c3
      let tail ← base64Decode rest
      some ((n0 * 4 + n1 / 16) :: (n1 % 16 * 16 + n2 / 4) :: (n2 % 4 * 64 + n3) :: tail)
  | _ => none

/-- GoVal models a dynamically typed Go value (the `any` given to newValue):
the supported scalar kinds carry their payloads; goOther stands for a value of
any other Go dynamic type, carrying only the name of that type (the converter
only inspects the type, via the type switch default case).  Floating point
payloads are carried as their IEEE-754 bit pattern; the converter never
computes with them, so the bit pattern is all that is observable. -/
inductive GoVal where
  | goNil
  | goBool (b : Bool)
  | goInt (n : Int)
  | goInt32 (n : Int)
  | goInt64 (n : Int)
  | goUInt (n : Nat)
  | goUInt32 (n : Nat)
  | goUInt64 (n : Nat)
  | goFloat32 (bits : Nat)
  | goFloat64 (bits : Nat)
  | goString (s : GoStr)
  | goBytes (bs : GoStr)
  | goMap (fields : List (GoStr × GoVal))
  | goList (items : List GoVal)
  | goOther (tyName : String)

/-- Value models the Qdrant grpc.Value tagged union: the Kind oneof over
null, bool, integer (int64), double (float64, by bit pattern), string, struct
and list.  A struct is its field map, kept here as an association list. -/
inductive Value where
  | nullValue
  | boolValue (b : Bool)
  | integerValue (n : Int)
  | doubleValue (bits : Nat)
  | stringValue (s : GoStr)
  | structValue (fields : List (GoStr × Value))
  | listValue (vs : List Value)

/-- GoErr models the two error values the converter can produce, mirroring the
two fmt.Errorf sites: invalid UTF-8 in a string (carrying the offending
bytes), and an unsupported dynamic type (carrying the type name). -/
inductive GoErr where
  | invalidUTF8 (s : GoStr)
  | invalidType (tyName : String)
deriving DecidableEq, Repr

/-- uint64AsInt64 models the Go conversion int64(v) for a uint64 value v:
two-complement reinterpretation of the low 64 bits. -/
def uint64AsInt64 (n : Nat) : Int :=
  if n % 2 ^ 64 < 2 ^ 63 then (n % 2 ^ 64 : Int) else (n % 2 ^ 64 : Int) - 2 ^ 64

mutual

/-- newValue models the Go newValue type switch: it constructs a Value from a
dynamically typed Go value, or returns the first error encountered. -/
def newValue : GoVal → Except GoErr Value
  | .goNil => .ok .nullValue
  | .goBool b => .ok (.boolValue b)
  | .goInt n => .ok (.integerValue n)
  | .goInt32 n => .ok (.integerValue n)
  | .goInt64 n => .ok (.integerValue n)
  | .goUInt n => .ok (.integerValue (uint64AsInt64 n))
  | .goUInt32 n => .ok (.integerValue (n : Int))
  | .goUInt64 n => .ok (.integerValue (uint64AsInt64 n))
  | .goFloat32 bits => .ok (.doubleValue bits)
  | .goFloat64 bits => .ok (.doubleValue bits)
  | .goString s =>
    if utf8Valid s then .ok (.stringValue s) else .error (.invalidUTF8 s)
  | .goBytes bs => .ok (.stringValue (base64Encode bs))
  | .goMap fields =>
    match newStruct fields with
    | .ok st => .ok (.structValue st)
    | .error e => .error e
  | .goList items =>
    match newList items with
    | .ok vs => .ok (.listValue vs)
    | .error e => .error e
  | .goOther tyName => .error (.invalidType tyName)

/-- newList models the Go newList loop: each slice element is converted with
newValue; the first element error aborts the whole list conversion. -/
def newList : List GoVal → Except GoErr (List Value)
  | [] => .ok []
  | v :: rest =>
    match newValue v with
    | .error e => .error e
    | .ok w =>
      match newList rest with
      | .error e => .error e
      | .ok ws => .ok (w :: ws)

/-- newStruct models the Go newStruct loop: each key is checked for UTF-8
validity, each value converted with newValue; the first error aborts. -/
def newStruct : List (GoStr × GoVal) → Except GoErr (List (GoStr × Value))
  | [] => .ok []
  | (k, v) :: rest =>
    if utf8Valid k then
      match newValue v with
      | .error e => .error e
      | .ok w =>
        match newStruct rest with
        | .error e => .error e
        | .ok ws => .ok ((k, w) :: ws)
    else .error (.invalidUTF8 k)

end

/-- MapResult is the outcome of newValueMap: the function either returns the
converted map normally or panics; it has no error return value at all. -/
inductive MapResult where
  | ok (m : List (GoStr × Value))
  | panicked (e : GoErr)

/-- newValueMap models the Go newValueMap loop: each entry value is converted
with newValue and any conversion error is raised as a panic (modelled by the
panicked constructor); note that, unlike newStruct, the top-level keys are not
UTF-8 checked. -/
def newValueMap : List (GoStr × GoVal) → MapResult
  | [] => .ok []
  | (k, v) :: rest =>
    match newValue v with
    | .error e => .panicked e
    | .ok w =>
      match newValueMap rest with
      | .panicked e => .panicked e
      | .ok m => .ok ((k, w) :: m)

example : newValue (.goBool true) = .ok (.boolValue true) := by rfl

example : newValue (.goString [104, 105]) = .ok (.stringValue [104, 105]) := by
  rfl

example : newValue (.goString [0xFF]) = .error (.invalidUTF8 [0xFF]) := by
  rfl

example : newValue (.goBytes [119, 111, 114, 108, 100]) =
    .ok (.stringValue [100, 50, 57, 121, 98, 71, 81, 61]) := by rfl

example : newValue (.goList [.goString [102, 111, 111], .goInt 32]) =
    .ok (.listValue [.stringValue [102, 111, 111], .integerValue 32]) := by rfl

example : newValueMap [([107], .goMap [([0xC0], .goNil)])] =
    .panicked (.invalidUTF8 [0xC0]) := by rfl

mutual

/-- wfValue holds when a Go value tree is built only from the supported kinds,
with every string value and every map key valid UTF-8. -/
def wfValue : GoVal → Bool
  | .goNil => true
  | .goBool _ => true
  | .goInt _ => true
  | .goInt32 _ => true
  | .goInt64 _ => true
  | .goUInt _ => true
  | .goUInt32 _ => true
  | .goUInt64 _ => true
  | .goFloat32 _ => true
  | .goFloat64 _ => true
  | .goString s => utf8Valid s
  | .goBytes _ => true
  | .goMap fields => wfFields fields
  | .goList items => wfItems items
  | .goOther _ => false

/-- wfItems extends wfValue over the elements of a list value. -/
def wfItems : List GoVal → Bool
  | [] => true
  | v :: rest => wfValue v && wfItems rest

/-- wfFields extends wfValue over map entries, also requiring valid keys. -/
def wfFields : List (GoStr × GoVal) → Bool
  | [] => true
  | (k, v) :: rest => utf8Valid k && wfValue v && wfFields rest

end

mutual

/-- hasBadUTF8 holds when the tree contains, anywhere, a string value or a
map key that is not valid UTF-8. -/
def hasBadUTF8 : GoVal → Bool
  | .goString s => !utf8Valid s
  | .goMap fields => fieldsHaveBadUTF8 fields
  | .goList items => itemsHaveBadUTF8 items
  | _ => false

/-- itemsHaveBadUTF8 extends hasBadUTF8 over list elements. -/
def itemsHaveBadUTF8 : List GoVal → Bool
  | [] => false
  | v :: rest => hasBadUTF8 v || itemsHaveBadUTF8 rest

/-- fieldsHaveBadUTF8 extends hasBadUTF8 over map entries, keys included. -/
def fieldsHaveBadUTF8 : List (GoStr × GoVal) → Bool
  | [] => false
  | (k, v) :: rest => !utf8Valid k || hasBadUTF8 v || fieldsHaveBadUTF8 rest

end

mutual

/-- hasUnsupported holds when the tree contains, anywhere, a leaf of a dynamic
type outside the supported set (a goOther node). -/
def hasUnsupported : GoVal → Bool
  | .goOther _ => true
  | .goMap fields => fieldsHaveUnsupported fields
  | .goList items => itemsHaveUnsupported items
  | _ => false

/-- itemsHaveUnsupported extends hasUnsupported over list elements. -/
def itemsHaveUnsupported : List GoVal → Bool
  | [] => false
  | v :: rest => hasUnsupported v || itemsHaveUnsupported rest

/-- fieldsHaveUnsupported extends hasUnsupported over map entries. -/
def fieldsHaveUnsupported : List (GoStr × GoVal) → Bool
  | [] => false
  | (_, v) :: rest => hasUnsupported v || fieldsHaveUnsupported rest

end

mutual

/-- kindMatches states the structural correspondence of the conversion table
in section 4.1 of the spec: the output node has the kind the table assigns to
the input node, maps keep their key sequence, lists keep length and order, and
the correspondence holds recursively below. -/
def kindMatches : GoVal → Value → Bool
  | .goNil, .nullValue => true
  | .goBool _, .boolValue _ => true
  | .goInt _, .integerValue _ => true
  | .goInt32 _, .integerValue _ => true
  | .goInt64 _, .integerValue _ => true
  | .goUInt _, .integerValue _ => true
  | .goUInt32 _, .integerValue _ => true
  | .goUInt64 _, .integerValue _ => true
  | .goFloat32 _, .doubleValue _ => true
  | .goFloat64 _, .doubleValue _ => true
  | .goString _, .stringValue _ => true
  | .goBytes _, .stringValue _ => true
  | .goMap fields, .structValue fs => fieldsKindMatch fields fs
  | .goList items, .listValue vs => itemsKindMatch items vs
  | _, _ => false

/-- itemsKindMatch relates list elements pairwise, forcing equal lengths and
preserved order. -/
def itemsKindMatch : List GoVal → List Value → Bool
  | [], [] => true
  | v :: rest, w :: ws => kindMatches v w && itemsKindMatch rest ws
  | _, _ => false

/-- fieldsKindMatch relates map entries pairwise, forcing the same keys (in
the same association-list order, hence the same key set). -/
def fieldsKindMatch : List (GoStr × GoVal) → List (GoStr × Value) → Bool
  | [], [] => true
  | (k, v) :: rest, (k2, w) :: ws =>
    decide (k = k2) && kindMatches v w && fieldsKindMatch rest ws
  | _, _ => false

end

mutual

/-- Conversion succeeds on every well-formed value and the result corresponds
kind-for-kind and shape-for-shape to the input. -/
theorem newValue_wf (v : GoVal) (h : wfValue v = true) :
    ∃ w, newValue v = .ok w ∧ kindMatches v w = true := by
  cases v with
  | goNil => exact ⟨.nullValue, rfl, rfl⟩
  | goBool b => exact ⟨.boolValue b, rfl, rfl⟩
  | goInt n => exact ⟨.integerValue n, rfl, rfl⟩
  | goInt32 n => exact ⟨.integerValue n, rfl, rfl⟩
  | goInt64 n => exact ⟨.integerValue n, rfl, rfl⟩
  | goUInt n => exact ⟨.integerValue (uint64AsInt64 n), rfl, rfl⟩
  | goUInt32 n => exact ⟨.integerValue (n : Int), rfl, rfl⟩
  | goUInt64 n => exact ⟨.integerValue (uint64AsInt64 n), rfl, rfl⟩
  | goFloat32 bits => exact ⟨.doubleValue bits, rfl, rfl⟩
  | goFloat64 bits => exact ⟨.doubleValue bits, rfl, rfl⟩
  | goString s =>
    refine ⟨.stringValue s, ?_, rfl⟩
    simp only [wfValue] at h
    simp [newValue, h]
  | goBytes bs => exact ⟨.stringValue (base64Encode bs), rfl, rfl⟩
  | goMap fields =>
    simp only [wfValue] at h
    obtain ⟨ws, hok, hm⟩ := newStruct_wf fields h
    refine ⟨.structValue ws, ?_, ?_⟩
    · simp [newValue, hok]
    · simpa [kindMatches] using hm
  | goList items =>
    simp only [wfValue] at h
    obtain ⟨ws, hok, hm⟩ := newList_wf items h
    refine ⟨.listValue ws, ?_, ?_⟩
    · simp [newValue, hok]
    · simpa [kindMatches] using hm
  | goOther tyName => simp [wfValue] at h

/-- List conversion succeeds on well-formed elements, preserving length and
order with elementwise kind correspondence. -/
theorem newList_wf (items : List GoVal) (h : wfItems items = true) :
    ∃ ws, newList items = .ok ws ∧ itemsKindMatch items ws = true := by
  cases items with
  | nil => exact ⟨[], rfl, rfl⟩
  | cons v rest =>
    simp only [wfItems, Bool.and_eq_true] at h
    obtain ⟨w, hok, hm⟩ := newValue_wf v h.1
    obtain ⟨ws, hoks, hms⟩ := newList_wf rest h.2
    refine ⟨w :: ws, ?_, ?_⟩
    · simp [newList, hok, hoks]
    · simp [itemsKindMatch, hm, hms]

/-- Struct conversion succeeds on well-formed entries, keeping the key
sequence and converting each entry value with kind correspondence. -/
theorem newStruct_wf (fields : List (GoStr × GoVal)) (h : wfFields fields = true) :
    ∃ ws, newStruct fields = .ok ws ∧ fieldsKindMatch fields ws = true := by
  cases fields with
  | nil => exact ⟨[], rfl, rfl⟩
  | cons p rest =>
    obtain ⟨k, v⟩ := p
    simp only [wfFields, Bool.and_eq_true] at h
    obtain ⟨⟨hk, hv⟩, hrest⟩ := h
    obtain ⟨w, hok, hm⟩ := newValue_wf v hv
    obtain ⟨ws, hoks, hms⟩ := newStruct_wf rest hrest
    refine ⟨(k, w) :: ws, ?_, ?_⟩
    · simp [newStruct, hk, hok, hoks]
    · simp [fieldsKindMatch, hm, hms]

end

mutual

/-- Conversion of a tree containing an invalid UTF-8 string or key anywhere
always ends in an error (and hence, the result being an Except, produces no
partial output). -/
theorem hasBadUTF8_err (v : GoVal) (h : hasBadUTF8 v = true) :
    ∃ e, newValue v = .error e := by
  cases v with
  | goString s =>
    simp only [hasBadUTF8, Bool.not_eq_eq_eq_not, Bool.not_true] at h
    exact ⟨.invalidUTF8 s, by simp [newValue, h]⟩
  | goMap fields =>
    simp only [hasBadUTF8] at h
    obtain ⟨e, he⟩ := fieldsBadUTF8_err fields h
    exact ⟨e, by simp [newValue, he]⟩
  | goList items =>
    simp only [hasBadUTF8] at h
    obtain ⟨e, he⟩ := itemsBadUTF8_err items h
    exact ⟨e, by simp [newValue, he]⟩
  | goOther tyName => exact ⟨.invalidType tyName, rfl⟩
  | goNil => simp [hasBadUTF8] at h
  | goBool b => simp [hasBadUTF8] at h
  | goInt n => simp [hasBadUTF8] at h
  | goInt32 n => simp [hasBadUTF8] at h
  | goInt64 n => simp [hasBadUTF8] at h
  | goUInt n => simp [hasBadUTF8] at h
  | goUInt32 n => simp [hasBadUTF8] at h
  | goUInt64 n => simp [hasBadUTF8] at h
  | goFloat32 bits => simp [hasBadUTF8] at h
  | goFloat64 bits => simp [hasBadUTF8] at h
  | goBytes bs => simp [hasBadUTF8] at h

/-- List conversion of elements containing an invalid UTF-8 string anywhere
ends in an error. -/
theorem itemsBadUTF8_err (items : List GoVal) (h : itemsHaveBadUTF8 items = true) :
    ∃ e, newList items = .error e := by
  cases items with
  | nil => simp [itemsHaveBadUTF8] at h
  | cons v rest =>
    simp only [itemsHaveBadUTF8, Bool.or_eq_true] at h
    by_cases hv : hasBadUTF8 v = true
    · obtain ⟨e, he⟩ := hasBadUTF8_err v hv
      exact ⟨e, by simp [newList, he]⟩
    · have hrest : itemsHaveBadUTF8 rest = true := by tauto
      obtain ⟨e, he⟩ := itemsBadUTF8_err rest hrest
      cases hnv : newValue v with
      | error e2 => exact ⟨e2, by simp [newList, hnv]⟩
      | ok w => exact ⟨e, by simp [newList, hnv, he]⟩

/-- Struct conversion of entries containing an invalid UTF-8 key or value
anywhere ends in an error. -/
theorem fieldsBadUTF8_err (fields : List (GoStr × GoVal))
    (h : fieldsHaveBadUTF8 fields = true) :
    ∃ e, newStruct fields = .error e := by
  cases fields with
  | nil => simp [fieldsHaveBadUTF8] at h
  | cons p rest =>
    obtain ⟨k, v⟩ := p
    by_cases hk : utf8Valid k = true
    · simp only [fieldsHaveBadUTF8, hk, Bool.not_true, Bool.false_or,
        Bool.or_eq_true] at h
      by_cases hv : hasBadUTF8 v = true
      · obtain ⟨e, he⟩ := hasBadUTF8_err v hv
        exact ⟨e, by simp [newStruct, hk, he]⟩
      · have hrest : fieldsHaveBadUTF8 rest = true := by tauto
        obtain ⟨e, he⟩ := fieldsBadUTF8_err rest hrest
        cases hnv : newValue v with
        | error e2 => exact ⟨e2, by simp [newStruct, hk, hnv]⟩
        | ok w => exact ⟨e, by simp [newStruct, hk, hnv, he]⟩
    · exact ⟨.invalidUTF8 k, by simp [newStruct, hk]⟩

end

mutual

/-- Conversion of a tree containing an unsupported leaf anywhere always ends
in an error. -/
theorem hasUnsupported_err (v : GoVal) (h : hasUnsupported v = true) :
    ∃ e, newValue v = .error e := by
  cases v with
  | goOther tyName => exact ⟨.invalidType tyName, rfl⟩
  | goMap fields =>
    simp only [hasUnsupported] at h
    obtain ⟨e, he⟩ := fieldsUnsupported_err fields h
    exact ⟨e, by simp [newValue, he]⟩
  | goList items =>
    simp only [hasUnsupported] at h
    obtain ⟨e, he⟩ := itemsUnsupported_err items h
    exact ⟨e, by simp [newValue, he]⟩
  | goNil => simp [hasUnsupported] at h
  | goBool b => simp [hasUnsupported] at h
  | goInt n => simp [hasUnsupported] at h
  | goInt32 n => simp [hasUnsupported] at h
  | goInt64 n => simp [hasUnsupported] at h
  | goUInt n => simp [hasUnsupported] at h
  | goUInt32 n => simp [hasUnsupported] at h
  | goUInt64 n => simp [hasUnsupported] at h
  | goFloat32 bits => simp [hasUnsupported] at h
  | goFloat64 bits => simp [hasUnsupported] at h
  | goString s => simp [hasUnsupported] at h
  | goBytes bs => simp [hasUnsupported] at h

/-- List conversion of elements containing an unsupported leaf anywhere ends
in an error. -/
theorem itemsUnsupported_err (items : List GoVal)
    (h : itemsHaveUnsupported items = true) :
    ∃ e, newList items = .error e := by
  cases items with
  | nil => simp [itemsHaveUnsupported] at h
  | cons v rest =>
    simp only [itemsHaveUnsupported, Bool.or_eq_true] at h
    by_cases hv : hasUnsupported v = true
    · obtain ⟨e, he⟩ := hasUnsupported_err v hv
      exact ⟨e, by simp [newList, he]⟩
    · have hrest : itemsHaveUnsupported rest = true := by tauto
      obtain ⟨e, he⟩ := itemsUnsupported_err rest hrest
      cases hnv : newValue v with
      | error e2 => exact ⟨e2, by simp [newList, hnv]⟩
      | ok w => exact ⟨e, by simp [newList, hnv, he]⟩

/-- Struct conversion of entries containing an unsupported leaf anywhere ends
in an error. -/
theorem fieldsUnsupported_err (fields : List (GoStr × GoVal))
    (h : fieldsHaveUnsupported fields = true) :
    ∃ e, newStruct fields = .error e := by
  cases fields with
  | nil => simp [fieldsHaveUnsupported] at h
  | cons p rest =>
    obtain ⟨k, v⟩ := p
    simp only [fieldsHaveUnsupported, Bool.or_eq_true] at h
    by_cases hk : utf8Valid k = true
    · by_cases hv : hasUnsupported v = true
      · obtain ⟨e, he⟩ := hasUnsupported_err v hv
        exact ⟨e, by simp [newStruct, hk, he]⟩
      · have hrest : fieldsHaveUnsupported rest = true := by tauto
        obtain ⟨e, he⟩ := fieldsUnsupported_err rest hrest
        cases hnv : newValue v with
        | error e2 => exact ⟨e2, by simp [newStruct, hk, hnv]⟩
        | ok w => exact ⟨e, by simp [newStruct, hk, hnv, he]⟩
    · exact ⟨.invalidUTF8 k, by simp [newStruct, hk]⟩

end

mutual

/-- Classification of errors when no unsupported leaf occurs: the only
possible conversion error is an encoding error carrying invalid bytes. -/
theorem err_is_utf8 (v : GoVal) (hu : hasUnsupported v = false) (e : GoErr)
    (he : newValue v = .error e) : ∃ s, e = .invalidUTF8 s ∧ utf8Valid s = false := by
  cases v with
  | goString s =>
    cases hs : utf8Valid s with
    | true => simp [newValue, hs] at he
    | false =>
      simp only [newValue, hs, Bool.false_eq_true, if_false,
        Except.error.injEq] at he
      exact ⟨s, he.symm, hs⟩
  | goMap fields =>
    simp only [hasUnsupported] at hu
    cases hs : newStruct fields with
    | ok ws => simp [newValue, hs] at he
    | error e2 =>
      simp only [newValue, hs, Except.error.injEq] at he
      exact he ▸ fieldsErr_is_utf8 fields hu e2 hs
  | goList items =>
    simp only [hasUnsupported] at hu
    cases hs : newList items with
    | ok ws => simp [newValue, hs] at he
    | error e2 =>
      simp only [newValue, hs, Except.error.injEq] at he
      exact he ▸ itemsErr_is_utf8 items hu e2 hs
  | goOther tyName => simp [hasUnsupported] at hu
  | goNil => simp [newValue] at he
  | goBool b => simp [newValue] at he
  | goInt n => simp [newValue] at he
  | goInt32 n => simp [newValue] at he
  | goInt64 n => simp [newValue] at he
  | goUInt n => simp [newValue] at he
  | goUInt32 n => simp [newValue] at he
  | goUInt64 n => simp [newValue] at he
  | goFloat32 bits => simp [newValue] at he
  | goFloat64 bits => simp [newValue] at he
  | goBytes bs => simp [newValue] at he

/-- List version of the error classification without unsupported leaves. -/
theorem itemsErr_is_utf8 (items : List GoVal)
    (hu : itemsHaveUnsupported items = false) (e : GoErr)
    (he : newList items = .error e) :
    ∃ s, e = .invalidUTF8 s ∧ utf8Valid s = false := by
  cases items with
  | nil => simp [newList] at he
  | cons v rest =>
    simp only [itemsHaveUnsupported, Bool.or_eq_false_iff] at hu
    cases hnv : newValue v with
    | error e2 =>
      simp only [newList, hnv, Except.error.injEq] at he
      exact he ▸ err_is_utf8 v hu.1 e2 hnv
    | ok w =>
      cases hrest : newList rest with
      | error e3 =>
        simp only [newList, hnv, hrest, Except.error.injEq] at he
        exact he ▸ itemsErr_is_utf8 rest hu.2 e3 hrest
      | ok ws => simp [newList, hnv, hrest] at he

/-- Struct version of the error classification without unsupported leaves. -/
theorem fieldsErr_is_utf8 (fields : List (GoStr × GoVal))
    (hu : fieldsHaveUnsupported fields = false) (e : GoErr)
    (he : newStruct fields = .error e) :
    ∃ s, e = .invalidUTF8 s ∧ utf8Valid s = false := by
  cases fields with
  | nil => simp [newStruct] at he
  | cons p rest =>
    obtain ⟨k, v⟩ := p
    simp only [fieldsHaveUnsupported, Bool.or_eq_false_iff] at hu
    cases hk : utf8Valid k with
    | false =>
      simp only [newStruct, hk, Bool.false_eq_true, if_false,
        Except.error.injEq] at he
      exact ⟨k, he.symm, hk⟩
    | true =>
      cases hnv : newValue v with
      | error e2 =>
        simp only [newStruct, hk, hnv, if_true, Except.error.injEq] at he
        exact he ▸ err_is_utf8 v hu.1 e2 hnv
      | ok w =>
        cases hrest : newStruct rest with
        | error e3 =>
          simp only [newStruct, hk, hnv, hrest, if_true, Except.error.injEq] at he
          exact he ▸ fieldsErr_is_utf8 rest hu.2 e3 hrest
        | ok ws => simp [newStruct, hk, hnv, hrest] at he

end

mutual

/-- Classification of errors when every string and key is valid UTF-8: the
only possible conversion error is the unsupported-type error. -/
theorem err_is_type (v : GoVal) (hb : hasBadUTF8 v = false) (e : GoErr)
    (he : newValue v = .error e) : ∃ t, e = .invalidType t := by
  cases v with
  | goString s =>
    simp only [hasBadUTF8, Bool.not_eq_eq_eq_not, Bool.not_false] at hb
    simp [newValue, hb] at he
  | goMap fields =>
    simp only [hasBadUTF8] at hb
    cases hs : newStruct fields with
    | ok ws => simp [newValue, hs] at he
    | error e2 =>
      simp only [newValue, hs, Except.error.injEq] at he
      exact he ▸ fieldsErr_is_type fields hb e2 hs
  | goList items =>
    simp only [hasBadUTF8] at hb
    cases hs : newList items with
    | ok ws => simp [newValue, hs] at he
    | error e2 =>
      simp only [newValue, hs, Except.error.injEq] at he
      exact he ▸ itemsErr_is_type items hb e2 hs
  | goOther tyName =>
    simp only [newValue, Except.error.injEq] at he
    exact ⟨tyName, he.symm⟩
  | goNil => simp [newValue] at he
  | goBool b => simp [newValue] at he
  | goInt n => simp [newValue] at he
  | goInt32 n => simp [newValue] at he
  | goInt64 n => simp [newValue] at he
  | goUInt n => simp [newValue] at he
  | goUInt32 n => simp [newValue] at he
  | goUInt64 n => simp [newValue] at he
  | goFloat32 bits => simp [newValue] at he
  | goFloat64 bits => simp [newValue] at he
  | goBytes bs => simp [newValue] at he

/-- List version of the error classification without invalid UTF-8. -/
theorem itemsErr_is_type (items : List GoVal)
    (hb : itemsHaveBadUTF8 items = false) (e : GoErr)
    (he : newList items = .error e) : ∃ t, e = .invalidType t := by
  cases items with
  | nil => simp [newList] at he
  | cons v rest =>
    simp only [itemsHaveBadUTF8, Bool.or_eq_false_iff] at hb
    cases hnv : newValue v with
    | error e2 =>
      simp only [newList, hnv, Except.error.injEq] at he
      exact he ▸ err_is_type v hb.1 e2 hnv
    | ok w =>
      cases hrest : newList rest with
      | error e3 =>
        simp only [newList, hnv, hrest, Except.error.injEq] at he
        exact he ▸ itemsErr_is_type rest hb.2 e3 hrest
      | ok ws => simp [newList, hnv, hrest] at he

/-- Struct version of the error classification without invalid UTF-8. -/
theorem fieldsErr_is_type (fields : List (GoStr × GoVal))
    (hb : fieldsHaveBadUTF8 fields = false) (e : GoErr)
    (he : newStruct fields = .error e) : ∃ t, e = .invalidType t := by
  cases fields with
  | nil => simp [newStruct] at he
  | cons p rest =>
    obtain ⟨k, v⟩ := p
    simp only [fieldsHaveBadUTF8, Bool.or_eq_false_iff,
      Bool.not_eq_eq_eq_not, Bool.not_false] at hb
    obtain ⟨⟨hk, hv⟩, hrest0⟩ := hb
    cases hnv : newValue v with
    | error e2 =>
      simp only [newStruct, hk, hnv, if_true, Except.error.injEq] at he
      exact he ▸ err_is_type v hv e2 hnv
    | ok w =>
      cases hrest : newStruct rest with
      | error e3 =>
        simp only [newStruct, hk, hnv, hrest, if_true, Except.error.injEq] at he
        exact he ▸ fieldsErr_is_type rest hrest0 e3 hrest
      | ok ws => simp [newStruct, hk, hnv, hrest] at he

end

/-- Fail-fast over a list: once a prefix converts cleanly, the first failing
element determines the error of the whole list conversion, whatever follows. -/
theorem newList_append_error (xs : List GoVal) (ws : List Value)
    (ys : List GoVal) (v : GoVal) (e : GoErr)
    (hxs : newList xs = .ok ws) (hv : newValue v = .error e) :
    newList (xs ++ v :: ys) = .error e := by
  induction xs generalizing ws with
  | nil => simp [newList, hv]
  | cons x rest ih =>
    cases hx : newValue x with
    | error e2 => simp [newList, hx] at hxs
    | ok w =>
      cases hrest : newList rest with
      | error e3 => simp [newList, hx, hrest] at hxs
      | ok ws2 =>
        have step := ih ws2 hrest
        simp only [List.cons_append, newList, hx]
        simp only [List.append_eq] at step ⊢
        rw [step]

/-- Decoding inverts the alphabet map on every 6-bit value. -/
theorem base64CharDec_enc : ∀ n, n < 64 → base64CharDec (base64Char n) = some n := by
  decide

/-- The alphabet never contains the padding byte. -/
theorem base64Char_ne_pad (n : Nat) : base64Char n ≠ 61 := by
  unfold base64Char
  split
  · omega
  · split
    · omega
    · split
      · omega
      · split <;> omega

/-- Standard base64 decoding inverts the encoding on every byte sequence. -/
theorem base64_roundtrip : ∀ bs : List Nat, (∀ b ∈ bs, b < 256) →
    base64Decode (base64Encode bs) = some bs
  | [], _ => rfl
  | [b0], h => by
    have hb0 : b0 < 256 := h b0 (by simp)
    have h0 := base64CharDec_enc (b0 / 4) (by omega)
    have h1 := base64CharDec_enc (b0 % 4 * 16) (by omega)
    have hm : b0 % 4 * 16 % 16 = 0 := by omega
    have e0 : b0 / 4 * 4 + b0 % 4 * 16 / 16 = b0 := by omega
    simp [base64Encode, base64Decode, h0, h1, hm]
    omega
  | [b0, b1], h => by
    have hb0 : b0 < 256 := h b0 (by simp)
    have hb1 : b1 < 256 := h b1 (by simp)
    have h0 := base64CharDec_enc (b0 / 4) (by omega)
    have h1 := base64CharDec_enc (b0 % 4 * 16 + b1 / 16) (by omega)
    have h2 := base64CharDec_enc (b1 % 16 * 4) (by omega)
    have hne := base64Char_ne_pad (b1 % 16 * 4)
    have hm : b1 % 16 * 4 % 4 = 0 := by omega
    have e0 : b0 / 4 * 4 + (b0 % 4 * 16 + b1 / 16) / 16 = b0 := by omega
    have e1 : (b0 % 4 * 16 + b1 / 16) % 16 * 16 + b1 % 16 * 4 / 4 = b1 := by omega
    simp [base64Encode, base64Decode, h0, h1, h2, hne, hm]
    omega
  | b0 :: b1 :: b2 :: rest, h => by
    have hb0 : b0 < 256 := h b0 (by simp)
    have hb1 : b1 < 256 := h b1 (by simp)
    have hb2 : b2 < 256 := h b2 (by simp)
    have h0 := base64CharDec_enc (b0 / 4) (by omega)
    have h1 := base64CharDec_enc (b0 % 4 * 16 + b1 / 16) (by omega)
    have h2 := base64CharDec_enc (b1 % 16 * 4 + b2 / 64) (by omega)
    have h3 := base64CharDec_enc (b2 % 64) (by omega)
    have hne := base64Char_ne_pad (b2 % 64)
    have ih := base64_roundtrip rest (fun b hb => h b (by simp [hb]))
    have e0 : b0 / 4 * 4 + (b0 % 4 * 16 + b1 / 16) / 16 = b0 := by omega
    have e1 : (b0 % 4 * 16 + b1 / 16) % 16 * 16 + (b1 % 16 * 4 + b2 / 64) / 4 = b1 := by
      omega
    have e2 : (b1 % 16 * 4 + b2 / 64) % 4 * 64 + b2 % 64 = b2 := by omega
    simp [base64Encode, base64Decode, h0, h1, h2, h3, hne, ih]
    omega

/-- C1: for every metadata tree built only from null, bool, integers, floats,
valid-UTF-8 strings, byte sequences, string-keyed maps and lists of such
values, newValue succeeds and returns a typed Value tree of the same shape,
each node having the kind the conversion table assigns (maps keep their key
set, lists keep length and order). -/
theorem claim_C1 (v : GoVal) (h : wfValue v = true) :
    ∃ w, newValue v = .ok w ∧ kindMatches v w = true :=
  newValue_wf v h

/-- Witness for C1 at a concrete tree exercising every supported kind. -/
theorem claim_C1_witness :
    wfValue (.goMap [([107, 101, 121], .goList
      [.goNil, .goBool true, .goInt 42, .goUInt64 (2 ^ 63 + 5), .goFloat64 7,
       .goString [104, 105], .goBytes [0, 255],
       .goMap [([97], .goInt32 (-3))]])]) = true ∧
    ∃ w, newValue (.goMap [([107, 101, 121], .goList
      [.goNil, .goBool true, .goInt 42, .goUInt64 (2 ^ 63 + 5), .goFloat64 7,
       .goString [104, 105], .goBytes [0, 255],
       .goMap [([97], .goInt32 (-3))]])]) = .ok w ∧
    kindMatches (.goMap [([107, 101, 121], .goList
      [.goNil, .goBool true, .goInt 42, .goUInt64 (2 ^ 63 + 5), .goFloat64 7,
       .goString [104, 105], .goBytes [0, 255],
       .goMap [([97], .goInt32 (-3))]])]) w = true :=
  ⟨by rfl, claim_C1 _ (by rfl)⟩

/-- C2: a tree containing an invalid UTF-8 string value or map key anywhere
fails (the Except result rules out partial output); when the tree has no
unsupported leaf the error is specifically the encoding error carrying bytes
that are not valid UTF-8; and the first failing element of a list determines
the error of the whole conversion (fail-fast). -/
theorem claim_C2 (v : GoVal) (h : hasBadUTF8 v = true) :
    (∃ e, newValue v = .error e) ∧
    (hasUnsupported v = false →
      ∃ s, newValue v = .error (.invalidUTF8 s) ∧ utf8Valid s = false) ∧
    (∀ (xs : List GoVal) (ws : List Value) (ys : List GoVal) (u : GoVal)
      (e : GoErr), newList xs = .ok ws → newValue u = .error e →
      newList (xs ++ u :: ys) = .error e) := by
  refine ⟨hasBadUTF8_err v h, fun hu => ?_, newList_append_error⟩
  obtain ⟨e, he⟩ := hasBadUTF8_err v h
  obtain ⟨s, rfl, hs⟩ := err_is_utf8 v hu e he
  exact ⟨s, he, hs⟩

/-- Witness for C2 at a tree whose nested map carries an invalid UTF-8 key. -/
theorem claim_C2_witness :
    hasBadUTF8 (.goList [.goString [104], .goMap [([0xC0], .goNil)]]) = true ∧
    hasUnsupported (.goList [.goString [104], .goMap [([0xC0], .goNil)]]) = false ∧
    (∃ s, newValue (.goList [.goString [104], .goMap [([0xC0], .goNil)]]) =
      .error (.invalidUTF8 s) ∧ utf8Valid s = false) ∧
    newList ([.goString [104]] ++ .goString [0xFF] :: [.goNil]) =
      .error (.invalidUTF8 [0xFF]) :=
  ⟨by rfl, by rfl,
   (claim_C2 _ (by rfl)).2.1 (by rfl),
   (claim_C2 (.goString [0xFF]) (by rfl)).2.2 [.goString [104]]
     [.stringValue [104]] [.goNil] (.goString [0xFF]) (.invalidUTF8 [0xFF])
     (by rfl) (by rfl)⟩

/-- C3: a tree containing a leaf of an unsupported dynamic type anywhere
fails, the whole conversion aborting with no partial payload; when every
string and key in the tree is valid UTF-8 the error is specifically the
unsupported-type error. -/
theorem claim_C3 (v : GoVal) (h : hasUnsupported v = true) :
    (∃ e, newValue v = .error e) ∧
    (hasBadUTF8 v = false → ∃ t, newValue v = .error (.invalidType t)) := by
  refine ⟨hasUnsupported_err v h, fun hb => ?_⟩
  obtain ⟨e, he⟩ := hasUnsupported_err v h
  obtain ⟨t, rfl⟩ := err_is_type v hb e he
  exact ⟨t, he⟩

/-- Witness for C3 at a tree with a function-typed leaf inside a list. -/
theorem claim_C3_witness :
    hasUnsupported (.goList [.goInt 1, .goOther "func()"]) = true ∧
    hasBadUTF8 (.goList [.goInt 1, .goOther "func()"]) = false ∧
    ∃ t, newValue (.goList [.goInt 1, .goOther "func()"]) =
      .error (.invalidType t) :=
  ⟨by rfl, by rfl, (claim_C3 _ (by rfl)).2 (by rfl)⟩

/-- entriesConverted relates an input map to an output map entrywise: same
keys in the same order, each entry value converted by newValue. -/
def entriesConverted (m : List (GoStr × GoVal)) (ws : List (GoStr × Value)) : Prop :=
  List.Forall₂ (fun p q => p.1 = q.1 ∧ newValue p.2 = .ok q.2) m ws

/-- Every map whose entries all convert gives an ok newValueMap result. -/
theorem newValueMap_all_ok (m : List (GoStr × GoVal))
    (h : ∀ p ∈ m, ∃ w, newValue p.2 = .ok w) :
    ∃ ws, newValueMap m = .ok ws ∧ entriesConverted m ws := by
  induction m with
  | nil => exact ⟨[], rfl, List.Forall₂.nil⟩
  | cons p rest ih =>
    obtain ⟨w, hw⟩ := h p (by simp)
    obtain ⟨ws, hws, hrel⟩ := ih (fun q hq => h q (by simp [hq]))
    exact ⟨(p.1, w) :: ws, by simp [newValueMap, hw, hws], hrel.cons ⟨rfl, hw⟩⟩

/-- The first failing entry of the map makes newValueMap panic with exactly
that entry error. -/
theorem newValueMap_panics (xs : List (GoStr × GoVal)) (k : GoStr) (v : GoVal)
    (ys : List (GoStr × GoVal)) (e : GoErr)
    (hxs : ∀ p ∈ xs, ∃ w, newValue p.2 = .ok w) (hv : newValue v = .error e) :
    newValueMap (xs ++ (k, v) :: ys) = .panicked e := by
  induction xs with
  | nil => simp [newValueMap, hv]
  | cons p rest ih =>
    obtain ⟨w, hw⟩ := hxs p (by simp)
    have step := ih (fun q hq => hxs q (by simp [hq]))
    simp only [List.cons_append, newValueMap, hw]
    simp only [List.append_eq] at step ⊢
    rw [step]

/-- C10: newValueMap has no error return at all (its result type MapResult is
ok-or-panic): a map whose entries all convert returns the converted map, and
a map whose first failing entry yields error e panics with exactly e. -/
theorem claim_C10 (m : List (GoStr × GoVal)) :
    ((∀ p ∈ m, ∃ w, newValue p.2 = .ok w) →
      ∃ ws, newValueMap m = .ok ws ∧ entriesConverted m ws) ∧
    (∀ (xs : List (GoStr × GoVal)) (k : GoStr) (v : GoVal)
      (ys : List (GoStr × GoVal)) (e : GoErr),
      m = xs ++ (k, v) :: ys → (∀ p ∈ xs, ∃ w, newValue p.2 = .ok w) →
      newValue v = .error e → newValueMap m = .panicked e) := by
  refine ⟨newValueMap_all_ok m, ?_⟩
  rintro xs k v ys e rfl hxs hv
  exact newValueMap_panics xs k v ys e hxs hv

/-- Witness for C10: a clean map converts to ok; a map whose second entry has
an invalid UTF-8 string panics with that encoding error. -/
theorem claim_C10_witness :
    (∃ ws, newValueMap [([97], .goInt 1)] = .ok ws ∧
      entriesConverted [([97], .goInt 1)] ws) ∧
    newValueMap ([([97], .goInt 1)] ++ ([98], .goString [0x80]) :: []) =
      .panicked (.invalidUTF8 [0x80]) :=
  ⟨(claim_C10 [([97], .goInt 1)]).1
    (by intro p hp; simp at hp; subst hp; exact ⟨.integerValue 1, rfl⟩),
   (claim_C10 ([([97], .goInt 1)] ++ ([98], .goString [0x80]) :: [])).2
    [([97], .goInt 1)] [98] (.goString [0x80]) [] (.invalidUTF8 [0x80]) rfl
    (by intro p hp; simp at hp; subst hp; exact ⟨.integerValue 1, rfl⟩)
    (by rfl)⟩

/-- rotl32 rotates a 32-bit word left by k bits (k at most 32). -/
def rotl32 (k x : Nat) : Nat :=
  x % 2 ^ 32 * 2 ^ k % 2 ^ 32 + x % 2 ^ 32 / 2 ^ (32 - k)

/-- sha1F is the SHA-1 round function for round t. -/
def sha1F (t b c d : Nat) : Nat :=
  if t < 20 then b &&& c ||| (b ^^^ 0xFFFFFFFF) &&& d
  else if t < 40 then b ^^^ c ^^^ d
  else if t < 60 then b &&& c ||| b &&& d ||| c &&& d
  else b ^^^ c ^^^ d

/-- sha1K is the SHA-1 round constant for round t. -/
def sha1K (t : Nat) : Nat :=
  if t < 20 then 0x5A827999
  else if t < 40 then 0x6ED9EBA1
  else if t < 60 then 0x8F1BBCDC
  else 0xCA62C1D6

/-- bytesBE writes the low n bytes of a value, most significant first. -/
def bytesBE (n v : Nat) : List Nat :=
  match n with
  | 0 => []
  | m + 1 => bytesBE m (v / 256) ++ [v % 256]

/-- bytesToWords packs bytes four at a time into big-endian 32-bit words. -/
def bytesToWords : List Nat → List Nat
  | b0 :: b1 :: b2 :: b3 :: rest =>
    (b0 * 2 ^ 24 + b1 * 2 ^ 16 + b2 * 2 ^ 8 + b3) :: bytesToWords rest
  | _ => []

/-- chunks64 splits a byte sequence into 64-byte blocks. -/
def chunks64 : List Nat → List (List Nat)
  | [] => []
  | b :: rest => ((b :: rest).take 64) :: chunks64 ((b :: rest).drop 64)
termination_by l => l.length
decreasing_by simp; omega

/-- sha1Pad appends the 0x80 marker, zero padding to 56 mod 64, and the
64-bit big-endian bit length, as the SHA-1 standard requires. -/
def sha1Pad (msg : List Nat) : List Nat :=
  msg ++ 0x80 :: List.replicate ((119 - msg.length % 64) % 64) 0 ++
    bytesBE 8 (msg.length * 8)

/-- sha1Expand grows the 16-word block schedule to 80 words. -/
def sha1Expand (w : List Nat) : List Nat :=
  if w.length < 80 then
    sha1Expand (w ++ [rotl32 1 (w.getD (w.length - 3) 0 ^^^ w.getD (w.length - 8) 0 ^^^
      w.getD (w.length - 14) 0 ^^^ w.getD (w.length - 16) 0)])
  else w
termination_by 80 - w.length
decreasing_by simp_all; omega

/-- Sha1State is the five-word SHA-1 working state. -/
structure Sha1State where
  a : Nat
  b : Nat
  c : Nat
  d : Nat
  e : Nat

/-- sha1Rounds runs the 80 compression rounds over the word schedule. -/
def sha1Rounds (t : Nat) (ws : List Nat) (st : Sha1State) : Sha1State :=
  match ws with
  | [] => st
  | w :: rest =>
    sha1Rounds (t + 1) rest
      ⟨(rotl32 5 st.a + sha1F t st.b st.c st.d + st.e + sha1K t + w) % 2 ^ 32,
       st.a, rotl32 30 st.b, st.c, st.d⟩

/-- sha1Block compresses one 64-byte block into the chaining state. -/
def sha1Block (st : Sha1State) (block : List Nat) : Sha1State :=
  let r := sha1Rounds 0 (sha1Expand (bytesToWords block)) st
  ⟨(st.a + r.a) % 2 ^ 32, (st.b + r.b) % 2 ^ 32, (st.c + r.c) % 2 ^ 32,
   (st.d + r.d) % 2 ^ 32, (st.e + r.e) % 2 ^ 32⟩

/-- sha1 is the full SHA-1 digest of a byte sequence, twenty bytes. -/
def sha1 (msg : List Nat) : List Nat :=
  let st := (chunks64 (sha1Pad msg)).foldl sha1Block
    ⟨0x67452301, 0xEFCDAB89, 0x98BADCFE, 0x10325476, 0xC3D2E1F0⟩
  bytesBE 4 st.a ++ bytesBE 4 st.b ++ bytesBE 4 st.c ++ bytesBE 4 st.d ++
    bytesBE 4 st.e

/-- nameSpaceDNS is the fixed namespace constant uuid.NameSpaceDNS used by
generatePointId (6ba7b810-9dad-11d1-80b4-00c04fd430c8). -/
def nameSpaceDNS : List Nat :=
  [0x6b, 0xa7, 0xb8, 0x10, 0x9d, 0xad, 0x11, 0xd1,
   0x80, 0xb4, 0x00, 0xc0, 0x4f, 0xd4, 0x30, 0xc8]

/-- uuidNewSHA1 models uuid.NewSHA1 of the google/uuid package: the first 16
bytes of the SHA-1 digest of namespace plus data, with the version nibble set
to 5 and the variant bits set to 10. -/
def uuidNewSHA1 (space data : List Nat) : List Nat :=
  let d := (sha1 (space ++ data)).take 16
  (d.set 6 (d.getD 6 0 % 16 + 0x50)).set 8 (d.getD 8 0 % 64 + 0x80)

/-- hexDigit is the lowercase hexadecimal digit byte for a value below 16. -/
def hexDigit (n : Nat) : Nat :=
  if n < 10 then 48 + n else 87 + n

/-- hexBytes renders bytes as lowercase hexadecimal digit pairs. -/
def hexBytes : List Nat → List Nat
  | [] => []
  | b :: rest => hexDigit (b / 16) :: hexDigit (b % 16) :: hexBytes rest

/-- uuidString models the String method of the uuid package: the canonical
8-4-4-4-12 lowercase hexadecimal form with dash bytes. -/
def uuidString (u : List Nat) : GoStr :=
  hexBytes (u.take 4) ++ 45 :: hexBytes ((u.drop 4).take 2) ++
    45 :: hexBytes ((u.drop 6).take 2) ++ 45 :: hexBytes ((u.drop 8).take 2) ++
    45 :: hexBytes (u.drop 10)

/-- GoDocument models the genkit ai.Document as seen by generatePointId: a
sequence of content part texts and a metadata map with string keys.  Metadata
values are kept as strings, enough to express serialization equality. -/
structure GoDocument where
  content : List GoStr
  metadata : List (GoStr × GoStr)
deriving DecidableEq

/-- lexLe is byte-wise lexicographic order on byte strings, the order Go uses
for map keys in JSON serialization. -/
def lexLe : List Nat → List Nat → Bool
  | [], _ => true
  | _ :: _, [] => false
  | a :: as, b :: bs => if a < b then true else if b < a then false else lexLe as bs

/-- insertSorted inserts one metadata entry into a key-sorted list. -/
def insertSorted (p : GoStr × GoStr) :
    List (GoStr × GoStr) → List (GoStr × GoStr)
  | [] => [p]
  | q :: rest => if lexLe p.1 q.1 then p :: q :: rest else q :: insertSorted p rest

/-- sortByKey sorts metadata entries by key, as Go encoding/json sorts map
keys before writing them. -/
def sortByKey (l : List (GoStr × GoStr)) : List (GoStr × GoStr) :=
  l.foldr insertSorted []

/-- jsonQuote wraps bytes in double quotes (byte 34). -/
def jsonQuote (s : List Nat) : List Nat :=
  34 :: s ++ [34]

/-- jsonMarshal: modelled from the spec, standing for the external
json.Marshal call applied to an ai.Document inside generatePointId (the
serializer itself is library code outside this repository).  Per the spec the
serialization is canonical: a fixed field order (content then metadata) and
deterministically ordered map keys, which Go guarantees by sorting them; the
claim about generatePointId only depends on equality of these bytes. -/
def jsonMarshal (d : GoDocument) : List Nat :=
  123 :: jsonQuote [99, 111, 110, 116, 101, 110, 116] ++ 58 ::
    91 :: List.intercalate [44] (d.content.map jsonQuote) ++ 93 :: 44 ::
    jsonQuote [109, 101, 116, 97, 100, 97, 116, 97] ++ 58 ::
    123 :: List.intercalate [44]
      ((sortByKey d.metadata).map fun p => jsonQuote p.1 ++ 58 :: jsonQuote p.2) ++
    [125, 125]

/-- generatePointId models the Go generatePointId: json.Marshal the document,
then derive the name-based SHA-1 UUID from the fixed DNS namespace and the
serialized bytes, returned in canonical string form. -/
def generatePointId (d : GoDocument) : GoStr :=
  uuidString (uuidNewSHA1 nameSpaceDNS (jsonMarshal d))

/-- C4: point-id generation is deterministic and content-addressed: the id is
a pure function of the fixed namespace constant and the serialized document
bytes, so any two documents with identical serialized content receive the
same UUID string, in the same run or across runs. -/
theorem claim_C4 :
    (∀ d, generatePointId d = uuidString (uuidNewSHA1 nameSpaceDNS (jsonMarshal d))) ∧
    (∀ d1 d2, jsonMarshal d1 = jsonMarshal d2 →
      generatePointId d1 = generatePointId d2) := by
  refine ⟨fun d => rfl, fun d1 d2 h => ?_⟩
  unfold generatePointId
  rw [h]

/-- Witness for C4: two documents that differ as records (metadata listed in
different orders) serialize identically and receive the same id. -/
theorem claim_C4_witness :
    jsonMarshal ⟨[[104]], [([97], [49]), ([98], [50])]⟩ =
      jsonMarshal ⟨[[104]], [([98], [50]), ([97], [49])]⟩ ∧
    generatePointId ⟨[[104]], [([97], [49]), ([98], [50])]⟩ =
      generatePointId ⟨[[104]], [([98], [50]), ([97], [49])]⟩ :=
  ⟨by decide, claim_C4.2 _ _ (by decide)⟩

/-- GoEffect is an observable external call of the Go adapter: the batched
embedder call, the upsert write, the nearest-neighbor query, the query-side
embedder call, and the backend collection-creation operation.  The last one
is part of the backend interface (section 6 of the spec); the Go adapter has
no call site for it, so no Go trace below ever contains it. -/
inductive GoEffect where
  | embed (docs : List GoDocument)
  | embedQuery
  | upsert (collection : GoStr) (pointIds : List GoStr)
  | query (collection : GoStr) (limit : Nat)
  | createCollection (collection : GoStr)
deriving DecidableEq

/-- goIndex models docStore.Index of the Go adapter: an empty document list
returns nil at once; otherwise one batched embedder call (its outcome given
by the embedder oracle), one point per document with its generatePointId id,
and a single upsert whose outcome is given by upsertOk.  The boolean result
is true exactly when the call returns a nil error. -/
def goIndex (collection : GoStr)
    (embedder : List GoDocument → Option (List (List Nat)))
    (upsertOk : Bool) (docs : List GoDocument) : List GoEffect × Bool :=
  if docs.isEmpty then ([], true)
  else
    match embedder docs with
    | none => ([.embed docs], false)
    | some _ =>
      ([.embed docs, .upsert collection (docs.map generatePointId)], upsertOk)

/-- lookupKey is Go map indexing over the payload association list. -/
def lookupKey (fields : List (GoStr × Value)) (k : GoStr) : Option Value :=
  match fields with
  | [] => none
  | (k2, v) :: rest => if k2 = k then some v else lookupKey rest k

/-- getStringValue models the GetStringValue accessor of grpc.Value: the
string payload when the kind is string, the empty string otherwise (also on a
missing, nil, value). -/
def getStringValue : Option Value → GoStr
  | some (.stringValue s) => s
  | _ => []

/-- getStructFields models GetStructValue().Fields on an optional value: the
field map when the kind is struct, the empty map otherwise. -/
def getStructFields : Option Value → List (GoStr × Value)
  | some (.structValue fs) => fs
  | _ => []

/-- copyFields models the Go retrieval loop that copies every metadata field
into a fresh map unchanged (metadata[k] = v, no decoding of any kind). -/
def copyFields : List (GoStr × Value) → List (GoStr × Value)
  | [] => []
  | (k, v) :: rest => (k, v) :: copyFields rest

/-- GoRetrieveErr models the error outcomes of docStore.Retrieve relevant to
the claims: the embedder failing, and the explicit failed-to-fetch-original-
document-text error raised on an empty content payload. -/
inductive GoRetrieveErr where
  | embedFailed
  | fetchFailed
deriving DecidableEq

/-- GoHit is one scored point returned by the backend query. -/
structure GoHit where
  payload : List (GoStr × Value)

/-- GoOutDoc is a document reconstructed by the Go retriever. -/
structure GoOutDoc where
  content : GoStr
  metadata : List (GoStr × Value)

/-- goMapHits models the Go result loop: each hit must carry a non-empty
string under the content key or the whole call fails with the fetch error;
metadata fields are copied through unchanged. -/
def goMapHits (ck mk : GoStr) : List GoHit → Except GoRetrieveErr (List GoOutDoc)
  | [] => .ok []
  | h :: rest =>
    if getStringValue (lookupKey h.payload ck) = ([] : List Nat) then
      .error .fetchFailed
    else
      match goMapHits ck mk rest with
      | .error e => .error e
      | .ok ds =>
        .ok (⟨getStringValue (lookupKey h.payload ck),
              copyFields (getStructFields (lookupKey h.payload mk))⟩ :: ds)

/-- uint64OfInt is the Go int to uint64 conversion, two-complement. -/
def uint64OfInt (i : Int) : Nat :=
  (i % 2 ^ 64).toNat

/-- goLimit models the limit computation of docStore.Retrieve: zero when no
options value is supplied, else uint64 of the K field. -/
def goLimit : Option Int → Nat
  | none => 0
  | some k => uint64OfInt k

/-- goRetrieve models docStore.Retrieve: embed the query (oracle outcome),
then issue the query with the computed limit and map the hits the backend
returns; there is no collection-existence step of any kind. -/
def goRetrieve (collection ck mk : GoStr) (embedOk : Bool) (opts : Option Int)
    (hits : List GoHit) : List GoEffect × Except GoRetrieveErr (List GoOutDoc) :=
  if embedOk then
    ([.embedQuery, .query collection (goLimit opts)], goMapHits ck mk hits)
  else ([.embedQuery], .error .embedFailed)

/-- JsEffect is an observable external call of the JS adapter. -/
inductive JsEffect where
  | existsCheck (collection : GoStr)
  | probeEmbed
  | createCollection (collection : GoStr)
  | embedDoc
  | jsQuery (limit : Nat)
  | jsUpsert (points : Nat)
deriving DecidableEq

/-- JsErr stands for the error thrown by the JS ensure helper, whose message
says the collection does not exist and documents should be indexed first. -/
inductive JsErr where
  | collectionMissing (collection : GoStr)
deriving DecidableEq

/-- createQdrantCollection models the JS helper: without explicit creation
options it first embeds a probe text to size the vectors, then creates the
collection. -/
def createQdrantCollection (collection : GoStr) (hasCreateOptions : Bool) :
    List JsEffect :=
  (if hasCreateOptions then [] else [.probeEmbed]) ++ [.createCollection collection]

/-- ensureCollection models the JS helper of the same name: check existence;
on a hit return; otherwise create when the createCollection flag is true,
else fail with the collection-missing error. -/
def ensureCollection (collection : GoStr) (collExists createCollection
    hasCreateOptions : Bool) : List JsEffect × Option JsErr :=
  if collExists then ([.existsCheck collection], none)
  else if createCollection then
    (.existsCheck collection :: createQdrantCollection collection hasCreateOptions,
     none)
  else ([.existsCheck collection], some (.collectionMissing collection))

/-- jsIndex models the JS indexer body: ensure the collection with
createCollection set to true, embed every document, and always issue one
upsert over the accumulated points (each document contributes one point per
embedding; a document here is its number of embeddings). -/
def jsIndex (collection : GoStr) (collExists hasCreateOptions : Bool)
    (docs : List Nat) : List JsEffect × Option JsErr :=
  match ensureCollection collection collExists true hasCreateOptions with
  | (eff, some e) => (eff, some e)
  | (eff, none) =>
    (eff ++ docs.map (fun _ => JsEffect.embedDoc) ++
      [.jsUpsert (docs.foldl (· + ·) 0)], none)

/-- resolveK models the retriever options schema: the k field defaults to 10
when the caller does not supply one. -/
def resolveK (kOpt : Option Nat) : Nat :=
  kOpt.getD 10

/-- JsHit is one scored point returned by the backend query to the JS
retriever. -/
structure JsHit where
  payload : List (GoStr × Value)
  score : Nat

/-- JsOutDoc is a document rebuilt by the JS retriever. -/
structure JsOutDoc where
  content : Value
  dataType : Value
  metadata : List (GoStr × Value)

/-- simScoreKey is the injected similarity score key _similarityScore. -/
def simScoreKey : GoStr :=
  [95, 115, 105, 109, 105, 108, 97, 114, 105, 116, 121, 83, 99, 111, 114, 101]

/-- jsHitDoc models the JS hit-to-document mapping: content falls back to the
empty string when the content field is absent, the data type falls back to
the bytes of text, and metadata is the spread of the metadata field (empty
when absent) plus the injected similarity score. -/
def jsHitDoc (ck mk dk : GoStr) (h : JsHit) : JsOutDoc where
  content := (lookupKey h.payload ck).getD (.stringValue [])
  dataType := (lookupKey h.payload dk).getD (.stringValue [116, 101, 120, 116])
  metadata := getStructFields (lookupKey h.payload mk) ++
    [(simScoreKey, .doubleValue h.score)]

/-- jsRetrieve models the JS retriever body: ensure the collection with
createCollection set to false (failing when it is missing), embed the query,
issue the query with the resolved limit, and map every hit to a document. -/
def jsRetrieve (collection ck mk dk : GoStr) (collExists : Bool)
    (kOpt : Option Nat) (hits : List JsHit) :
    List JsEffect × Except JsErr (List JsOutDoc) :=
  match ensureCollection collection collExists false false with
  | (eff, some e) => (eff, .error e)
  | (eff, none) =>
    (eff ++ [.embedDoc, .jsQuery (resolveK kOpt)],
     .ok (hits.map (jsHitDoc ck mk dk)))

/-- C5 (amended): in the Go adapter an indexer call with an empty document
list returns success with no external effect at all: no embedder call, no
collection creation, no upsert. -/
theorem claim_C5 (c : GoStr)
    (embedder : List GoDocument → Option (List (List Nat))) (upsertOk : Bool) :
    goIndex c embedder upsertOk [] = ([], true) := by
  rfl

/-- Counterexample to C5 as stated: the JS indexer, called with an empty
document list on an existing collection, still performs external effects,
namely the collection existence check and an upsert write with zero points. -/
theorem claim_C5_counterexample :
    jsIndex [99] true false [] = ([.existsCheck [99], .jsUpsert 0], none) ∧
    JsEffect.jsUpsert 0 ∈ (jsIndex [99] true false []).1 := by
  exact ⟨rfl, by decide⟩

/-- C6 (amended): in the JS adapter, retrieval against a missing collection
fails at once with the collection-missing error after only the existence
check (no creation, no query, no empty result set), while the JS indexer
under the same state creates the collection and proceeds; the asymmetry is
ensureCollection invoked with createCollection false versus true. -/
theorem claim_C6 (c ck mk dk : GoStr) (kOpt : Option Nat) (hits : List JsHit)
    (hasOpts : Bool) (docs : List Nat) :
    jsRetrieve c ck mk dk false kOpt hits =
      ([.existsCheck c], .error (.collectionMissing c)) ∧
    JsEffect.createCollection c ∉ (jsRetrieve c ck mk dk false kOpt hits).1 ∧
    ensureCollection c false false hasOpts =
      ([.existsCheck c], some (.collectionMissing c)) ∧
    ensureCollection c false true hasOpts =
      (.existsCheck c :: createQdrantCollection c hasOpts, none) ∧
    JsEffect.createCollection c ∈ (jsIndex c false hasOpts docs).1 ∧
    (jsIndex c false hasOpts docs).2 = none := by
  refine ⟨rfl, ?_, rfl, rfl, ?_, ?_⟩
  · simp [jsRetrieve, ensureCollection]
  · simp [jsIndex, ensureCollection, createQdrantCollection]
  · simp [jsIndex, ensureCollection]

/-- Counterexample to C6 as stated: the Go indexer, under a missing
collection, does not create it — its whole effect trace is the embedder call
and the upsert, with no collection creation anywhere, and the call fails
when the backend rejects the upsert rather than creating the collection. -/
theorem claim_C6_counterexample :
    goIndex [99] (fun _ => some [[1]]) false [⟨[[104]], []⟩] =
      ([.embed [⟨[[104]], []⟩],
        .upsert [99] [generatePointId ⟨[[104]], []⟩]], false) ∧
    GoEffect.createCollection [99] ∉
      (goIndex [99] (fun _ => some [[1]]) false [⟨[[104]], []⟩]).1 := by
  refine ⟨rfl, ?_⟩
  simp [goIndex]

/-- Every hit with an empty (or missing, or non-string) content payload makes
the Go result loop fail with the fetch error. -/
theorem goMapHits_err (ck mk : GoStr) (hits : List GoHit) (h : GoHit)
    (hmem : h ∈ hits) (hbad : getStringValue (lookupKey h.payload ck) = []) :
    goMapHits ck mk hits = .error .fetchFailed := by
  induction hits with
  | nil => simp at hmem
  | cons g rest ih =>
    rcases List.mem_cons.mp hmem with rfl | hmem2
    · simp [goMapHits, hbad]
    · by_cases hg : getStringValue (lookupKey g.payload ck) = ([] : List Nat)
      · simp [goMapHits, hg]
      · simp [goMapHits, hg, ih hmem2]

/-- C7 (amended): in the Go adapter, a query hit whose payload lacks the
configured content field (or whose content value is empty or not a string)
makes the whole retrieval call fail with the explicit
failed-to-fetch-original-document-text error, never yielding that hit as a
document with empty content. -/
theorem claim_C7 (ck mk : GoStr) (hits : List GoHit) (h : GoHit)
    (hmem : h ∈ hits)
    (hbad : getStringValue (lookupKey h.payload ck) = []) :
    goMapHits ck mk hits = .error .fetchFailed ∧
    ∀ (c : GoStr) (opts : Option Int),
      (goRetrieve c ck mk true opts hits).2 = .error .fetchFailed := by
  have hmain := goMapHits_err ck mk hits h hmem hbad
  exact ⟨hmain, fun c opts => by simp [goRetrieve, hmain]⟩

/-- Witness for C7 at a hit whose payload is empty. -/
theorem claim_C7_witness :
    (⟨[]⟩ : GoHit) ∈ [(⟨[]⟩ : GoHit)] ∧
    getStringValue (lookupKey (⟨[]⟩ : GoHit).payload [107]) = [] ∧
    goMapHits [107] [109] [⟨[]⟩] = .error .fetchFailed ∧
    (goRetrieve [99] [107] [109] true none [⟨[]⟩]).2 = .error .fetchFailed := by
  have hc := claim_C7 [107] [109] [⟨[]⟩] ⟨[]⟩ (by simp) (by rfl)
  exact ⟨by simp, by rfl, hc.1, hc.2 [99] none⟩

/-- Counterexample to C7 as stated: the JS retriever, given a hit whose
payload lacks the content field, succeeds and returns that hit as a document
with empty string content instead of failing. -/
theorem claim_C7_counterexample :
    jsRetrieve [99] [107] [109] [100] true none [⟨[], 5⟩] =
      ([.existsCheck [99], .embedDoc, .jsQuery 10],
       .ok [⟨.stringValue [], .stringValue [116, 101, 120, 116],
            [(simScoreKey, .doubleValue 5)]⟩]) := by
  rfl

/-- C8 (amended): the JS retriever resolves an absent k to the default 10 and
a supplied k to itself, and issues the query with exactly the resolved limit;
the Go retriever issues the query with limit 0 when no options are supplied
and with uint64 of K when they are (K itself for non-negative K below 2^64,
with no default of 10 anywhere). -/
theorem claim_C8 :
    (∀ kOpt : Option Nat, resolveK kOpt = kOpt.getD 10) ∧
    (∀ (c ck mk dk : GoStr) (kOpt : Option Nat) (hits : List JsHit),
      (jsRetrieve c ck mk dk true kOpt hits).1 =
        [.existsCheck c, .embedDoc, .jsQuery (resolveK kOpt)]) ∧
    goLimit none = 0 ∧
    (∀ (c ck mk : GoStr) (opts : Option Int) (hits : List GoHit),
      (goRetrieve c ck mk true opts hits).1 =
        [.embedQuery, .query c (goLimit opts)]) ∧
    (∀ k : Int, 0 ≤ k → k < 2 ^ 64 → goLimit (some k) = k.toNat) := by
  refine ⟨fun kOpt => rfl, fun c ck mk dk kOpt hits => rfl, rfl,
    fun c ck mk opts hits => rfl, fun k h1 h2 => ?_⟩
  simp only [goLimit, uint64OfInt]
  omega

/-- Witness for C8 at the supplied limit 7 on the Go side. -/
theorem claim_C8_witness :
    (0 : Int) ≤ 7 ∧ (7 : Int) < 2 ^ 64 ∧ goLimit (some 7) = (7 : Int).toNat :=
  ⟨by decide, by decide, claim_C8.2.2.2.2 7 (by decide) (by decide)⟩

/-- Counterexample to C8 as stated: a Go retrieval call with no options
issues the query with limit 0, not the default 10. -/
theorem claim_C8_counterexample :
    (goRetrieve [99] [107] [109] true none []).1 = [.embedQuery, .query [99] 0] ∧
    GoEffect.query [99] 10 ∉ (goRetrieve [99] [107] [109] true none []).1 := by
  exact ⟨rfl, by decide⟩

/-- The Go retrieval metadata loop copies every field through unchanged. -/
theorem copyFields_id (fields : List (GoStr × Value)) : copyFields fields = fields := by
  induction fields with
  | nil => rfl
  | cons p rest ih =>
    cases p
    simp [copyFields, ih]

/-- C9: a byte-sequence leaf is stored as a string Value holding its standard
base64 encoding, base64-decoding that stored string recovers exactly the
original bytes, and the adapter itself never decodes on retrieval: the
retrieval metadata loop passes every stored value through unchanged. -/
theorem claim_C9 (bs : GoStr) (h : ∀ b ∈ bs, b < 256) :
    newValue (.goBytes bs) = .ok (.stringValue (base64Encode bs)) ∧
    base64Decode (base64Encode bs) = some bs ∧
    (∀ fields : List (GoStr × Value), copyFields fields = fields) :=
  ⟨rfl, base64_roundtrip bs h, copyFields_id⟩

/-- Witness for C9 on the bytes of the word world. -/
theorem claim_C9_witness :
    (∀ b ∈ ([119, 111, 114, 108, 100] : List Nat), b < 256) ∧
    newValue (.goBytes [119, 111, 114, 108, 100]) =
      .ok (.stringValue [100, 50, 57, 121, 98, 71, 81, 61]) ∧
    base64Decode (base64Encode [119, 111, 114, 108, 100]) =
      some [119, 111, 114, 108, 100] :=
  ⟨by decide, by rfl,
   (claim_C9 [119, 111, 114, 108, 100] (by decide)).2.1⟩
